import Mathlib

/-!
Verification development for the Companion plugin (`src/main.ts`).

The observation-embedding-retrieval pipeline of `main.ts` is shallowly
embedded here:

* JavaScript numbers are idealised as elements of a linear ordered field `K`
  (instantiated with `ℝ` in the theorems, `Math.sqrt` becoming `Real.sqrt`);
  floating-point rounding is abstracted away, but the IEEE special values
  `NaN`, `Infinity` and `-Infinity` — which the code can actually produce,
  e.g. `0/0` in `cosineSimilarity` — are modelled explicitly by the `JsNum`
  wrapper, with JavaScript's propagation rules for them.
* `async` functions that can throw are embedded as functions returning
  `Except JsError _`; external effects (the OpenAI calls, vault reads) are
  injected as parameters so that each code path stays visible.
* The debounced `modify` handler is embedded as a step function over the
  sequence of event timestamps (milliseconds, as for `setTimeout`).
-/

/-- Errors that the JavaScript code can observe as thrown exceptions /
rejected promises: a missing file on `vault.adapter.read`, a `JSON.parse`
failure, and a failed OpenAI API call. The code in `main.ts` never inspects
an error value, so the constructors only record which boundary failed. -/
inductive JsError where
  | fileNotFound
  | parseError
  | apiError
deriving DecidableEq, Repr

/-- A JavaScript number: either `NaN`, `Infinity`, `-Infinity`, or an
ordinary (finite) number idealised as an element of `K`. -/
inductive JsNum (K : Type) where
  | nan
  | posInf
  | negInf
  | num (x : K)
deriving DecidableEq, Repr

namespace JsNum

variable {K : Type} [LinearOrderedField K]

/-- JavaScript `+` on numbers (finite values idealised, no rounding):
`NaN` propagates, `Infinity + -Infinity` is `NaN`. -/
def add : JsNum K → JsNum K → JsNum K
  | nan, _ => nan
  | _, nan => nan
  | posInf, negInf => nan
  | negInf, posInf => nan
  | posInf, _ => posInf
  | _, posInf => posInf
  | negInf, _ => negInf
  | _, negInf => negInf
  | num x, num y => num (x + y)

/-- JavaScript `*` on numbers: `NaN` propagates, `±Infinity * 0` is `NaN`,
otherwise infinities follow the sign rules. -/
def mul : JsNum K → JsNum K → JsNum K
  | nan, _ => nan
  | _, nan => nan
  | posInf, posInf => posInf
  | posInf, negInf => negInf
  | negInf, posInf => negInf
  | negInf, negInf => posInf
  | posInf, num y => if y = 0 then nan else if 0 < y then posInf else negInf
  | num x, posInf => if x = 0 then nan else if 0 < x then posInf else negInf
  | negInf, num y => if y = 0 then nan else if 0 < y then negInf else posInf
  | num x, negInf => if x = 0 then nan else if 0 < x then negInf else posInf
  | num x, num y => num (x * y)

/-- JavaScript `-` on numbers. -/
def sub : JsNum K → JsNum K → JsNum K
  | nan, _ => nan
  | _, nan => nan
  | posInf, posInf => nan
  | negInf, negInf => nan
  | posInf, _ => posInf
  | negInf, _ => negInf
  | num _, posInf => negInf
  | num _, negInf => posInf
  | num x, num y => num (x - y)

/-- JavaScript `/` on numbers: `NaN` propagates, `0/0` is `NaN`,
`x/0` for `x ≠ 0` is a signed infinity (the single zero of `K` standing
for JavaScript's `+0`), division by an infinity gives `0`. -/
def div : JsNum K → JsNum K → JsNum K
  | nan, _ => nan
  | _, nan => nan
  | posInf, posInf => nan
  | posInf, negInf => nan
  | negInf, posInf => nan
  | negInf, negInf => nan
  | posInf, num y => if 0 ≤ y then posInf else negInf
  | negInf, num y => if 0 ≤ y then negInf else posInf
  | num _, posInf => num 0
  | num _, negInf => num 0
  | num x, num y =>
      if y = 0 then (if x = 0 then nan else if 0 < x then posInf else negInf)
      else num (x / y)

end JsNum

section Pipeline

variable {K : Type} [LinearOrderedField K]

/-- `vecB[idx]` in JavaScript: out-of-range indexing yields `undefined`,
which behaves as `NaN` as soon as it enters arithmetic. -/
def jsIndex (v : List K) (i : Nat) : JsNum K :=
  match v[i]? with
  | some x => JsNum.num x
  | none => JsNum.nan

/-- The accumulator loop of
`vecA.reduce((acc, curr, idx) => acc + curr * vecB[idx], 0)`
(`main.ts:213`): `acc` starts at `0`, `idx` counts up along `vecA`. -/
def dotAux (vecB : List K) : JsNum K → Nat → List K → JsNum K
  | acc, _, [] => acc
  | acc, i, curr :: rest =>
      dotAux vecB (JsNum.add acc (JsNum.mul (JsNum.num curr) (jsIndex vecB i))) (i + 1) rest

/-- `const dotProduct = vecA.reduce((acc, curr, idx) => acc + curr * vecB[idx], 0)`. -/
def dotProduct (vecA vecB : List K) : JsNum K :=
  dotAux vecB (JsNum.num 0) 0 vecA

/-- `vec.reduce((acc, curr) => acc + curr * curr, 0)`: the sum of squares
under a magnitude. A pure fold over one vector — no cross indexing, so no
`NaN` can appear and the value is an ordinary `K`. -/
def sumSq (v : List K) : K :=
  v.foldl (fun acc curr => acc + curr * curr) 0

/-- `cosineSimilarity(vecA, vecB)` (`main.ts:212-217`):
`dotProduct / (Math.sqrt(sumSq vecA) * Math.sqrt(sumSq vecB))`, with
JavaScript division semantics (no guard: a zero denominator is divided
through and produces `NaN` or an infinity). `sqrt` abstracts `Math.sqrt`;
the theorems instantiate it with `Real.sqrt`. -/
def cosineSimilarity (sqrt : K → K) (vecA vecB : List K) : JsNum K :=
  JsNum.div (dotProduct vecA vecB)
    (JsNum.num (sqrt (sumSq vecA) * sqrt (sumSq vecB)))

/-- One entry of `observation_embeddings.json`: `{ text, embedding }`. -/
structure Observation (K : Type) where
  text : String
  embedding : List K
deriving DecidableEq, Repr

/-- The WhiteSpace and LineTerminator code points that JavaScript's
`String.prototype.trim` strips. -/
def jsWhitespace (c : Char) : Bool :=
  c.val == 0x09 || c.val == 0x0A || c.val == 0x0B || c.val == 0x0C ||
  c.val == 0x0D || c.val == 0x20 || c.val == 0xA0 || c.val == 0x1680 ||
  (0x2000 ≤ c.val && c.val ≤ 0x200A) || c.val == 0x2028 || c.val == 0x2029 ||
  c.val == 0x202F || c.val == 0x205F || c.val == 0x3000 || c.val == 0xFEFF

/-- `line.trim()`: strip leading and trailing JavaScript whitespace. -/
def jsTrim (s : String) : String :=
  String.mk (((s.data.dropWhile jsWhitespace).reverse.dropWhile jsWhitespace).reverse)

/-- The guard `line.trim().length === 0` of `generateAndStoreEmbeddings`. -/
def isBlankLine (line : String) : Bool :=
  (jsTrim line).length == 0

/-- `generateAndStoreEmbeddings(lines)` (`main.ts:109-131`). The OpenAI
embeddings call is injected as `embed`; a `.error` models a rejected
promise. The loop has no `try`/`catch`, so the first failing call makes the
whole `async` function throw before the final `adapter.write`: the result
`.ok data` is exactly the array persisted to `observation_embeddings.json`,
and `.error e` means the refresh aborted with nothing written. -/
def generateAndStoreEmbeddings (embed : String → Except JsError (List K)) :
    List String → List (Observation K) → Except JsError (List (Observation K))
  | [], acc => Except.ok acc
  | line :: rest, acc =>
      if isBlankLine line then
        generateAndStoreEmbeddings embed rest acc
      else
        match embed line with
        | Except.error e => Except.error e
        | Except.ok v =>
            generateAndStoreEmbeddings embed rest (acc ++ [⟨line, v⟩])

/-- The refresh entry point: the embeddings array starts empty
(`let embeddingsData = []`). -/
def refreshEmbeddings (embed : String → Except JsError (List K))
    (lines : List String) : Except JsError (List (Observation K)) :=
  generateAndStoreEmbeddings embed lines []

end Pipeline

section Debounce

/-- The debounced `modify` handler (`main.ts:60-78`) as a step function on
event timestamps (milliseconds). `pending` is the `debounceTimeout` slot:
`some p` means a timer is scheduled to fire at time `p`. Processing an
event at time `t`: a pending timer with `p ≤ t` has already fired (its
refresh ran at `p`), otherwise `clearTimeout` cancels it; either way
`setTimeout` re-arms the slot at `t + quiet`. After the last event, the
surviving timer fires. Returns the times at which refreshes run. -/
def debounceAux (quiet : Nat) : List Nat → Option Nat → List Nat
  | [], none => []
  | [], some p => [p]
  | t :: ts, none => debounceAux quiet ts (some (t + quiet))
  | t :: ts, some p =>
      if p ≤ t then
        p :: debounceAux quiet ts (some (t + quiet))
      else
        debounceAux quiet ts (some (t + quiet))

/-- Refresh times produced by a (time-ordered) list of notifications on
`observations.md`, starting with an empty `debounceTimeout` slot. -/
def debounceFires (quiet : Nat) (times : List Nat) : List Nat :=
  debounceAux quiet times none

/-- The handler only reacts to `modify` events whose `file.name` is
`observations.md`; other files never touch the debounce slot. -/
def debounceRefreshTimes (quiet : Nat) (events : List (Nat × String)) : List Nat :=
  debounceFires quiet ((events.filter (fun e => e.2 == "observations.md")).map Prod.fst)

/-- `10000` milliseconds: the quiet period hard-coded at `main.ts:76`. -/
def quietPeriodMs : Nat := 10000

end Debounce

section Generation

/-- `generateObservations(content)` (`main.ts:90-107`). The chat-completions
call is injected: `.error` is a rejected promise (caught by the
`try`/`catch`, which returns a fixed string), `.ok none` is a `null`
`message.content`, and `.ok (some s)` a string reply; `s || default`
falls back on the empty string too, since `""` is falsy. The function
always returns a string — it never throws. -/
def generateObservations (completion : Except JsError (Option String)) : String :=
  match completion with
  | Except.error _ => "Error generating observations."
  | Except.ok none => "No observations generated."
  | Except.ok (some s) => if s = "" then "No observations generated." else s

/-- The `Companion observe` ribbon handler's write (`main.ts:42-55`):
append `observations + "\n"` if `observations.md` exists (its content being
`c`), else create the file with `observations + "\n"`. -/
def observeRibbonUpdate (existing : Option String) (observations : String) : String :=
  match existing with
  | some c => c ++ (observations ++ "\n")
  | none => observations ++ "\n"

/-- `content.split('\n')` (`main.ts:73`): split at every newline, keeping
empty pieces (so a trailing newline yields a trailing `""` line). -/
def splitNewlines (content : String) : List String :=
  (content.data.splitOn '\n').map String.mk

end Generation

section Ranking

variable {K : Type} [LinearOrderedField K] {α : Type}

/-- `similarityScores` (`main.ts:264-267`): each stored observation is
mapped to `{ text, similarity: cosineSimilarity(observation.embedding,
userMessageEmbedding) }`. -/
def scoreObservations (sqrt : K → K) (query : List K) (obs : List (Observation K)) :
    List (String × JsNum K) :=
  obs.map (fun o => (o.text, cosineSimilarity sqrt o.embedding query))

/-- Whether a comparator result makes JavaScript's sort keep `a` at or
before `b`: `compareFn(a,b) ≤ 0`. A `NaN` (or infinite… only `NaN` arises
from `b.similarity - a.similarity` here) comparator result is not `< 0`
and not `> 0`, so the elements are left in place. -/
def jsLeZero : JsNum K → Bool
  | JsNum.num c => decide (c ≤ 0)
  | JsNum.negInf => true
  | _ => false

/-- Insert `x` into an already-sorted run: `x` lands before the first `y`
with `compareFn x y ≤ 0`. For a consistent comparator this reproduces the
(stable, since ES2019) `Array.prototype.sort`; for an inconsistent one
(`NaN` results) the standard leaves the order implementation-defined and
this is one conforming outcome. -/
def jsSortInsert (cmp : α → α → JsNum K) (x : α) : List α → List α
  | [] => [x]
  | y :: ys =>
      if jsLeZero (cmp x y) then x :: y :: ys else y :: jsSortInsert cmp x ys

/-- `array.sort(compareFn)` as a stable insertion sort. -/
def jsSort (cmp : α → α → JsNum K) (l : List α) : List α :=
  l.foldr (jsSortInsert cmp) []

/-- The comparator `(a, b) => b.similarity - a.similarity` (`main.ts:271`). -/
def similarityCmp (a b : String × JsNum K) : JsNum K :=
  JsNum.sub b.2 a.2

/-- The ranking step of `findRelevantObservations` (`main.ts:263-283`):
score all candidates, sort by the descending-similarity comparator,
`slice(0, k)`, and keep the texts. -/
def rankObservations (sqrt : K → K) (query : List K)
    (candidates : List (Observation K)) (k : Nat) : List String :=
  let scored := scoreObservations sqrt query candidates
  let sorted := jsSort similarityCmp scored
  (sorted.take k).map Prod.fst

/-- `findRelevantObservations(userMessage, k)` (`main.ts:252-284`) with its
two effects injected: `readIndex` is `JSON.parse(await adapter.read(…))`
(absent file or malformed JSON both reject — there is no `try`/`catch`
here, so either error propagates to the caller), `queryEmbed` is the
OpenAI embeddings call for the user message. -/
def findRelevantObservations (sqrt : K → K)
    (readIndex : Except JsError (List (Observation K)))
    (queryEmbed : Except JsError (List K)) (k : Nat) :
    Except JsError (List String) :=
  match readIndex with
  | Except.error e => Except.error e
  | Except.ok embeddingsData =>
      match queryEmbed with
      | Except.error e => Except.error e
      | Except.ok userMessageEmbedding =>
          Except.ok (rankObservations sqrt userMessageEmbedding embeddingsData k)

/-- The chat send handler's `try`/`catch` (`main.ts:308-343`): a failure
anywhere in retrieval (or generation, abstracted into `llmReply`) is caught
and replaced by the apology line; otherwise the Companion reply for the
joined context is shown. -/
def chatTurnMessage (retrieval : Except JsError (List String))
    (llmReply : String → String) : String :=
  match retrieval with
  | Except.error _ => "Companion: Sorry, there was an error processing your request."
  | Except.ok obsTexts => "Companion: " ++ llmReply (String.intercalate "\n" obsTexts)

end Ranking

section DebounceTheorems

/-- Event lists that only mention `observations.md` pass through the
handler's file-name filter unchanged. -/
theorem observationEvents_times (l : List Nat) :
    ((l.map (fun x => (x, "observations.md"))).filter
        (fun e => e.2 == "observations.md")).map Prod.fst = l := by
  induction l with
  | nil => rfl
  | cons t ts ih => simp_all

/-- While every next notification lands strictly inside the pending quiet
window, the pending timer is always cancelled and re-armed, so the only
refresh is the one fired by the final timer. -/
theorem debounceAux_chain (quiet : Nat) :
    ∀ (ts : List Nat) (t : Nat),
      List.Chain (fun a b => a ≤ b ∧ b < a + quiet) t ts →
      debounceAux quiet ts (some (t + quiet))
        = [(t :: ts).getLast (List.cons_ne_nil t ts) + quiet] := by
  intro ts
  induction ts with
  | nil => intro t _; simp [debounceAux]
  | cons t2 ts2 ih =>
      intro t h
      rcases List.chain_cons.mp h with ⟨⟨_, hlt⟩, hchain⟩
      have hnotLe : ¬ (t + quiet ≤ t2) := by omega
      simp only [debounceAux, if_neg hnotLe]
      rw [ih t2 hchain]
      simp [List.getLast_cons]

end DebounceTheorems

/-- C1: every burst of `modify` notifications on `observations.md` in which
each notification arrives less than the 10 s quiet period after the
previous one produces exactly one embedding refresh, fired one quiet
period after the last notification. -/
theorem debounce_burst_single_refresh (t : Nat) (ts : List Nat)
    (h : List.Chain (fun a b => a ≤ b ∧ b < a + quietPeriodMs) t ts) :
    debounceRefreshTimes quietPeriodMs
        ((t :: ts).map (fun x => (x, "observations.md")))
      = [(t :: ts).getLast (List.cons_ne_nil t ts) + quietPeriodMs] := by
  unfold debounceRefreshTimes
  rw [observationEvents_times]
  show debounceAux quietPeriodMs ts (some (t + quietPeriodMs)) = _
  exact debounceAux_chain quietPeriodMs ts t h

/-- Witness for C1: three notifications at 0 ms, 4000 ms and 9000 ms
(each gap below 10 s) yield the single refresh at 19000 ms. -/
theorem debounce_burst_single_refresh_witness :
    List.Chain (fun a b => a ≤ b ∧ b < a + quietPeriodMs) 0 [4000, 9000] ∧
    debounceRefreshTimes quietPeriodMs
        ([0, 4000, 9000].map (fun x => (x, "observations.md")))
      = [19000] := by
  have hchain : List.Chain (fun a b => a ≤ b ∧ b < a + quietPeriodMs) 0 [4000, 9000] := by
    norm_num [List.chain_cons, quietPeriodMs]
  refine ⟨hchain, ?_⟩
  have h := debounce_burst_single_refresh 0 [4000, 9000] hchain
  simpa using h

section RefreshTheorems

variable {K : Type}

/-- A refresh whose embedding calls all succeed appends, after the initial
accumulator, one entry per non-blank line, in order, with the literal line
as `text`. -/
theorem generateAndStoreEmbeddings_all_ok (embed : String → List K) :
    ∀ (lines : List String) (acc : List (Observation K)),
      generateAndStoreEmbeddings (fun s => Except.ok (embed s)) lines acc
        = Except.ok (acc ++ (lines.filter (fun l => !isBlankLine l)).map
            (fun l => ⟨l, embed l⟩)) := by
  intro lines
  induction lines with
  | nil => intro acc; simp [generateAndStoreEmbeddings]
  | cons line rest ih =>
      intro acc
      by_cases hb : isBlankLine line
      · simp [generateAndStoreEmbeddings, hb, ih]
      · simp only [generateAndStoreEmbeddings, if_neg hb]
        rw [ih]
        simp [hb]

/-- A failing embedding call aborts the rest of the batch: as soon as the
loop reaches a non-blank line whose call rejects, the whole function
throws, whatever was already accumulated. -/
theorem generateAndStoreEmbeddings_aborts (embed : String → Except JsError (List K))
    (line : String) (post : List String) (e : JsError) :
    ∀ (pre : List String) (acc : List (Observation K)),
      (∀ l ∈ pre, ∃ v, embed l = Except.ok v) →
      isBlankLine line = false →
      embed line = Except.error e →
      generateAndStoreEmbeddings embed (pre ++ line :: post) acc
        = Except.error e := by
  intro pre
  induction pre with
  | nil =>
      intro acc _ h2 h3
      simp [generateAndStoreEmbeddings, h2, h3]
  | cons l pre2 ih =>
      intro acc h1 h2 h3
      obtain ⟨v, hv⟩ := h1 l (List.mem_cons_self l pre2)
      have h1r : ∀ x ∈ pre2, ∃ w, embed x = Except.ok w :=
        fun x hx => h1 x (List.mem_cons_of_mem l hx)
      by_cases hb : isBlankLine l
      · simpa [generateAndStoreEmbeddings, hb] using ih acc h1r h2 h3
      · simp only [List.cons_append, generateAndStoreEmbeddings, if_neg hb, hv]
        exact ih _ h1r h2 h3

end RefreshTheorems

/-- C9: with every embedding call succeeding, a refresh persists exactly
one entry per line that is non-empty after trimming, in the original line
order, and each entry's `text` is the literal untrimmed line. -/
theorem refresh_entries_are_nonblank_untrimmed_lines
    (embed : String → List ℝ) (lines : List String) :
    refreshEmbeddings (fun s => Except.ok (embed s)) lines
      = Except.ok ((lines.filter (fun l => !isBlankLine l)).map
          (fun l => ⟨l, embed l⟩)) := by
  unfold refreshEmbeddings
  rw [generateAndStoreEmbeddings_all_ok]
  simp

/-- Counterexample to C5: the corpus lines `["x", "x"]` are persisted as
two index entries that share the text `"x"` — a completed refresh does not
reconcile duplicate texts. -/
theorem refresh_duplicate_text_counterexample :
    refreshEmbeddings (fun _ => Except.ok [(1 : ℝ)]) ["x", "x"]
      = Except.ok [⟨"x", [1]⟩, ⟨"x", [1]⟩] ∧
    ¬ (([(⟨"x", [(1 : ℝ)]⟩ : Observation ℝ), ⟨"x", [1]⟩]).map
        Observation.text).Nodup := by
  constructor
  · rfl
  · decide

/-- C5 (amended): a refresh keeps duplicates: for every text `s`, the
persisted index holds as many entries with text `s` as the corpus has
non-blank lines equal to `s` — duplicate corpus lines yield duplicate
entries instead of being reconciled. -/
theorem refresh_preserves_duplicate_counts
    (embed : String → List ℝ) (lines : List String) (s : String) :
    ∃ entries,
      refreshEmbeddings (fun l => Except.ok (embed l)) lines = Except.ok entries ∧
      entries.countP (fun o => o.text == s)
        = (lines.filter (fun l => !isBlankLine l)).count s := by
  refine ⟨_, refresh_entries_are_nonblank_untrimmed_lines embed lines, ?_⟩
  rw [List.countP_map, List.count]
  rfl

/-- Counterexample to C4: with line `"a"` embedding fine and line `"b"`
failing, the refresh returns the error — the successfully embedded `"a"`
is not persisted (nothing is written at all). -/
theorem refresh_abort_counterexample :
    refreshEmbeddings
        (fun s => if s = "a" then Except.ok [(1 : ℝ)] else Except.error JsError.apiError)
        ["a", "b"]
      = Except.error JsError.apiError ∧
    ¬ ∃ entries,
        refreshEmbeddings
            (fun s => if s = "a" then Except.ok [(1 : ℝ)] else Except.error JsError.apiError)
            ["a", "b"]
          = Except.ok entries ∧ (⟨"a", [(1 : ℝ)]⟩ : Observation ℝ) ∈ entries := by
  have h : refreshEmbeddings
      (fun s => if s = "a" then Except.ok [(1 : ℝ)] else Except.error JsError.apiError)
      ["a", "b"] = Except.error JsError.apiError := rfl
  exact ⟨h, by simp [h]⟩

/-- C4 (amended): one failing line aborts the whole refresh batch: if every
non-blank line before it embeds fine but line `line` fails, the function
rethrows that failure and nothing — not even the lines that succeeded — is
persisted for this refresh. -/
theorem refresh_aborts_on_first_failure (embed : String → Except JsError (List ℝ))
    (pre : List String) (line : String) (post : List String) (e : JsError)
    (h1 : ∀ l ∈ pre, ∃ v, embed l = Except.ok v)
    (h2 : isBlankLine line = false)
    (h3 : embed line = Except.error e) :
    refreshEmbeddings embed (pre ++ line :: post) = Except.error e := by
  unfold refreshEmbeddings
  exact generateAndStoreEmbeddings_aborts embed line post e pre [] h1 h2 h3

/-- Witness for the amended C4: `"a"` succeeds, `"b"` fails, `"c"` is never
reached; the refresh returns the API error. -/
theorem refresh_aborts_on_first_failure_witness :
    refreshEmbeddings
        (fun s => if s = "b" then Except.error JsError.apiError else Except.ok [(1 : ℝ)])
        (["a"] ++ "b" :: ["c"])
      = Except.error JsError.apiError := by
  refine refresh_aborts_on_first_failure _ ["a"] "b" ["c"] JsError.apiError ?_ ?_ ?_
  · intro l hl
    have hla : l = "a" := by simpa using hl
    subst hla
    exact ⟨[1], rfl⟩
  · rfl
  · rfl

/-- C10: `generateObservations` is total — a failed provider call is caught
and turned into the literal string `Error generating observations.`; the
ribbon handler appends that string to `observations.md` like any other
observation, and the next refresh embeds it as a corpus line of its own
(here after an existing corpus `"Old observation.\n"`). -/
theorem generateObservations_error_text_enters_index
    (e : JsError) (embed : String → List ℝ) :
    generateObservations (Except.error e) = "Error generating observations." ∧
    refreshEmbeddings (fun s => Except.ok (embed s))
        (splitNewlines
          (observeRibbonUpdate (some "Old observation.\n")
            (generateObservations (Except.error e))))
      = Except.ok
          [⟨"Old observation.", embed "Old observation."⟩,
           ⟨"Error generating observations.", embed "Error generating observations."⟩] := by
  exact ⟨rfl, rfl⟩

/-- Counterexample to C6: with the index document absent (the
`adapter.read` rejection), `findRelevantObservations` rethrows the error;
it does not behave like a query against an empty index, which would return
`Except.ok` with the empty ranking. -/
theorem missing_index_fatal_counterexample :
    findRelevantObservations Real.sqrt
        (Except.error JsError.fileNotFound) (Except.ok [(1 : ℝ)]) 5
      = Except.error JsError.fileNotFound ∧
    findRelevantObservations Real.sqrt
        (Except.error JsError.fileNotFound) (Except.ok [(1 : ℝ)]) 5
      ≠ Except.ok (rankObservations Real.sqrt [(1 : ℝ)] [] 5) := by
  exact ⟨rfl, by simp [findRelevantObservations]⟩

/-- C6 (amended): `findRelevantObservations` has no handling of its own —
an absent index document is exactly as fatal as a malformed one: whichever
error the read/parse step produces is rethrown to the chat handler, whose
`catch` turns it into the apology message. Absence is never converted into
an empty index. -/
theorem missing_index_propagates_like_malformed
    (e : JsError) (queryEmbed : Except JsError (List ℝ)) (k : Nat)
    (llmReply : String → String) :
    findRelevantObservations Real.sqrt (Except.error e) queryEmbed k
      = Except.error e ∧
    chatTurnMessage (findRelevantObservations Real.sqrt (Except.error e) queryEmbed k)
        llmReply
      = "Companion: Sorry, there was an error processing your request." := by
  exact ⟨rfl, rfl⟩

/-- C7: when embedding the user's message fails, `findRelevantObservations`
rethrows the failure to the chat handler instead of returning an empty
context, and the thrown result is distinguishable from every successful
(possibly empty) retrieval. -/
theorem query_embed_failure_propagates
    (data : List (Observation ℝ)) (e : JsError) (k : Nat) :
    findRelevantObservations Real.sqrt (Except.ok data) (Except.error e) k
      = Except.error e ∧
    (∀ ctx : List String,
      (Except.error e : Except JsError (List String)) ≠ Except.ok ctx) := by
  exact ⟨rfl, fun ctx h => Except.noConfusion h⟩

section JsNumLemmas

variable {K : Type} [LinearOrderedField K]

@[simp] theorem JsNum.add_num_num (x y : K) :
    JsNum.add (JsNum.num x) (JsNum.num y) = JsNum.num (x + y) := rfl

@[simp] theorem JsNum.add_num_nan (x : K) :
    JsNum.add (JsNum.num x) JsNum.nan = JsNum.nan := rfl

@[simp] theorem JsNum.add_nan (a : JsNum K) :
    JsNum.add JsNum.nan a = JsNum.nan := by
  cases a <;> rfl

@[simp] theorem JsNum.mul_num_num (x y : K) :
    JsNum.mul (JsNum.num x) (JsNum.num y) = JsNum.num (x * y) := rfl

@[simp] theorem JsNum.mul_num_nan (x : K) :
    JsNum.mul (JsNum.num x) JsNum.nan = JsNum.nan := rfl

@[simp] theorem JsNum.sub_num_num (x y : K) :
    JsNum.sub (JsNum.num x) (JsNum.num y) = JsNum.num (x - y) := rfl

@[simp] theorem JsNum.sub_num_nan (x : K) :
    JsNum.sub (JsNum.num x) JsNum.nan = JsNum.nan := rfl

@[simp] theorem JsNum.sub_nan (a : JsNum K) :
    JsNum.sub JsNum.nan a = JsNum.nan := by
  cases a <;> rfl

@[simp] theorem JsNum.div_nan (a : JsNum K) :
    JsNum.div JsNum.nan a = JsNum.nan := by
  cases a <;> rfl

@[simp] theorem JsNum.div_zero_zero :
    JsNum.div (JsNum.num (0 : K)) (JsNum.num 0) = JsNum.nan := by
  simp [JsNum.div]

theorem JsNum.div_num_num_of_ne (x y : K) (hy : y ≠ 0) :
    JsNum.div (JsNum.num x) (JsNum.num y) = JsNum.num (x / y) := by
  simp [JsNum.div, hy]

theorem JsNum.div_num_zero (x : K) :
    JsNum.div (JsNum.num x) (JsNum.num 0) = JsNum.nan ∨
    JsNum.div (JsNum.num x) (JsNum.num 0) = JsNum.posInf ∨
    JsNum.div (JsNum.num x) (JsNum.num 0) = JsNum.negInf := by
  by_cases hx : x = 0
  · subst hx; simp
  · by_cases hp : 0 < x <;> simp [JsNum.div, hx, hp]

end JsNumLemmas

section SumSqLemmas

variable {K : Type} [LinearOrderedField K]

theorem sumSq_foldl (v : List K) :
    ∀ a : K, v.foldl (fun acc curr => acc + curr * curr) a = a + sumSq v := by
  induction v with
  | nil => intro a; simp [sumSq]
  | cons c rest ih =>
      intro a
      simp only [sumSq, List.foldl_cons] at *
      rw [ih, ih (0 + c * c)]
      ring

theorem sumSq_cons (c : K) (v : List K) : sumSq (c :: v) = c * c + sumSq v := by
  rw [show sumSq (c :: v)
        = v.foldl (fun acc curr => acc + curr * curr) (0 + c * c) from rfl,
      sumSq_foldl]
  ring

theorem sumSq_nonneg (v : List K) : 0 ≤ sumSq v := by
  induction v with
  | nil => simp [sumSq]
  | cons c rest ih =>
      rw [sumSq_cons]
      exact add_nonneg (mul_self_nonneg c) ih

/-- A vector has zero magnitude exactly when all its entries are zero. -/
theorem sumSq_eq_zero_iff (v : List K) : sumSq v = 0 ↔ ∀ x ∈ v, x = 0 := by
  induction v with
  | nil => simp [sumSq]
  | cons c rest ih =>
      rw [sumSq_cons]
      constructor
      · intro h
        have hc : c * c = 0 ∧ sumSq rest = 0 :=
          (add_eq_zero_iff_of_nonneg (mul_self_nonneg c) (sumSq_nonneg rest)).mp h
        have hc0 : c = 0 := by
          have := mul_self_eq_zero.mp hc.1
          exact this
        intro x hx
        rcases List.mem_cons.mp hx with h1 | h2
        · exact h1 ▸ hc0
        · exact (ih.mp hc.2) x h2
      · intro h
        have hc0 : c = 0 := h c (List.mem_cons_self c rest)
        have hr : sumSq rest = 0 := ih.mpr (fun x hx => h x (List.mem_cons_of_mem c hx))
        rw [hc0, hr]
        ring

end SumSqLemmas

section DotLemmas

variable {K : Type} [LinearOrderedField K]

/-- If one of the two vectors is all zeros, every term of the dot-product
reduction is `0` or `NaN`, so the accumulated value is `0` or `NaN`. -/
theorem dotAux_zero_or_nan (vecB : List K) (vecA : List K)
    (h : (∀ x ∈ vecA, x = 0) ∨ (∀ x ∈ vecB, x = 0)) :
    ∀ (i : Nat) (acc : JsNum K),
      (acc = JsNum.num 0 ∨ acc = JsNum.nan) →
      (dotAux vecB acc i vecA = JsNum.num 0 ∨ dotAux vecB acc i vecA = JsNum.nan) := by
  induction vecA with
  | nil => intro i acc hacc; exact hacc
  | cons curr rest ih =>
      intro i acc hacc
      have hterm : JsNum.mul (JsNum.num curr) (jsIndex vecB i) = JsNum.num 0 ∨
          JsNum.mul (JsNum.num curr) (jsIndex vecB i) = JsNum.nan := by
        rcases h with hA | hB
        · have hc : curr = 0 := hA curr (List.mem_cons_self curr rest)
          subst hc
          unfold jsIndex
          cases hv : vecB[i]? with
          | none => right; rfl
          | some x => left; simp
        · unfold jsIndex
          cases hv : vecB[i]? with
          | none => right; rfl
          | some x =>
              have hx : x = 0 := hB x (List.getElem?_mem hv)
              subst hx
              left; simp
      have hstep : JsNum.add acc (JsNum.mul (JsNum.num curr) (jsIndex vecB i))
          = JsNum.num 0 ∨
          JsNum.add acc (JsNum.mul (JsNum.num curr) (jsIndex vecB i)) = JsNum.nan := by
        rcases hacc with h0 | hn
        · rcases hterm with t0 | tn
          · left; simp [h0, t0]
          · right; simp [h0, tn]
        · right; simp [hn]
      have hrest : (∀ x ∈ rest, x = 0) ∨ (∀ x ∈ vecB, x = 0) := by
        rcases h with hA | hB
        · exact Or.inl (fun x hx => hA x (List.mem_cons_of_mem curr hx))
        · exact Or.inr hB
      have ih2 := ih hrest (i + 1) _ hstep
      exact ih2

theorem dotProduct_zero_or_nan (vecA vecB : List K)
    (h : (∀ x ∈ vecA, x = 0) ∨ (∀ x ∈ vecB, x = 0)) :
    dotProduct vecA vecB = JsNum.num 0 ∨ dotProduct vecA vecB = JsNum.nan := by
  unfold dotProduct
  exact dotAux_zero_or_nan vecB vecA h 0 _ (Or.inl rfl)

end DotLemmas

/-- Counterexample to C3: for the zero vectors `[0]` and `[0]` the code
computes `0 / (0 * 0) = NaN` — there is no guard, and the result is not
the similarity `0` the claim promises. -/
theorem cosine_zero_vector_counterexample :
    cosineSimilarity Real.sqrt ([0] : List ℝ) [0] = JsNum.nan ∧
    (JsNum.nan : JsNum ℝ) ≠ JsNum.num 0 := by
  constructor
  · have hdot : dotProduct ([0] : List ℝ) [0] = JsNum.num 0 := by
      simp [dotProduct, dotAux, jsIndex]
    have hs : sumSq ([0] : List ℝ) = 0 := by simp [sumSq]
    unfold cosineSimilarity
    rw [hdot, hs, Real.sqrt_zero, zero_mul]
    exact JsNum.div_zero_zero
  · simp

/-- C3 (amended): `cosineSimilarity` has no zero-magnitude guard: whenever
either vector has zero magnitude (its sum of squares is `0`), the division
is `0 / 0` or `NaN / 0` and the function returns `NaN`, never `0`. -/
theorem cosine_zero_magnitude_gives_nan (a b : List ℝ)
    (h : sumSq a = 0 ∨ sumSq b = 0) :
    cosineSimilarity Real.sqrt a b = JsNum.nan := by
  have hzero : (∀ x ∈ a, x = 0) ∨ (∀ x ∈ b, x = 0) := by
    rcases h with ha | hb
    · exact Or.inl ((sumSq_eq_zero_iff a).mp ha)
    · exact Or.inr ((sumSq_eq_zero_iff b).mp hb)
  have hden : Real.sqrt (sumSq a) * Real.sqrt (sumSq b) = 0 := by
    rcases h with ha | hb
    · rw [ha, Real.sqrt_zero, zero_mul]
    · rw [hb, Real.sqrt_zero, mul_zero]
  unfold cosineSimilarity
  rw [hden]
  rcases dotProduct_zero_or_nan a b hzero with hd | hd <;> rw [hd]
  · exact JsNum.div_zero_zero
  · exact JsNum.div_nan _

/-- Witness for the amended C3: the pair `[0], [3]` — the first vector has
zero magnitude and the similarity evaluates to `NaN`. -/
theorem cosine_zero_magnitude_gives_nan_witness :
    (sumSq ([0] : List ℝ) = 0 ∨ sumSq ([3] : List ℝ) = 0) ∧
    cosineSimilarity Real.sqrt ([0] : List ℝ) [3] = JsNum.nan := by
  have hs : sumSq ([0] : List ℝ) = 0 := by simp [sumSq]
  exact ⟨Or.inl hs, cosine_zero_magnitude_gives_nan [0] [3] (Or.inl hs)⟩

section DotSymmetry

variable {K : Type} [LinearOrderedField K]

/-- As long as the running index stays inside `vecB`, the dot-product
reduction is an ordinary sum of pairwise products. -/
theorem dotAux_eq_sum (b : List K) :
    ∀ (a : List K) (i : Nat) (r : K), i + a.length ≤ b.length →
      dotAux b (JsNum.num r) i a
        = JsNum.num (r + ((a.zip (b.drop i)).map (fun p => p.1 * p.2)).sum) := by
  intro a
  induction a with
  | nil => intro i r _; simp [dotAux]
  | cons c rest ih =>
      intro i r hlen
      have hi : i < b.length := by simp at hlen; omega
      have hidx : jsIndex b i = JsNum.num b[i] := by
        unfold jsIndex
        rw [List.getElem?_eq_getElem hi]
      have hstep : (i + 1) + rest.length ≤ b.length := by simp at hlen; omega
      simp only [dotAux, hidx, JsNum.mul_num_num, JsNum.add_num_num]
      rw [ih (i + 1) (r + c * b[i]) hstep]
      rw [List.drop_eq_getElem_cons hi]
      simp only [List.zip_cons_cons, List.map_cons, List.sum_cons]
      rw [add_assoc]

theorem dotProduct_eq_sum (a b : List K) (h : a.length ≤ b.length) :
    dotProduct a b = JsNum.num (((a.zip b).map (fun p => p.1 * p.2)).sum) := by
  unfold dotProduct
  rw [dotAux_eq_sum b a 0 0 (by simpa using h)]
  simp

theorem zip_mul_sum_comm :
    ∀ a b : List K,
      ((a.zip b).map (fun p => p.1 * p.2)).sum
        = ((b.zip a).map (fun p => p.1 * p.2)).sum := by
  intro a
  induction a with
  | nil => intro b; cases b <;> simp
  | cons c rest ih =>
      intro b
      cases b with
      | nil => simp
      | cons d bs => simp [ih bs, mul_comm]

end DotSymmetry

/-- Counterexample to C8: on vectors of different lengths the function is
not symmetric — `cosineSimilarity([1,1], [1])` hits the out-of-range
`vecB[1]`, its dot product becomes `NaN` and so does the result, while
`cosineSimilarity([1], [1,1])` only reads `vecA`'s single index and returns
an ordinary number. -/
theorem cosine_not_symmetric_counterexample :
    cosineSimilarity Real.sqrt ([1, 1] : List ℝ) [1]
      ≠ cosineSimilarity Real.sqrt ([1] : List ℝ) [1, 1] := by
  have hL : cosineSimilarity Real.sqrt ([1, 1] : List ℝ) [1] = JsNum.nan := by
    have hdot : dotProduct ([1, 1] : List ℝ) [1] = JsNum.nan := by
      simp [dotProduct, dotAux, jsIndex]
    unfold cosineSimilarity
    rw [hdot]
    exact JsNum.div_nan _
  have hden : Real.sqrt (sumSq ([1] : List ℝ)) * Real.sqrt (sumSq ([1, 1] : List ℝ))
      ≠ 0 := by
    have h1 : sumSq ([1] : List ℝ) = 1 := by simp [sumSq]
    have h2 : sumSq ([1, 1] : List ℝ) = 2 := by norm_num [sumSq]
    rw [h1, h2, Real.sqrt_one, one_mul]
    have : (0 : ℝ) < Real.sqrt 2 := Real.sqrt_pos.mpr (by norm_num)
    exact ne_of_gt this
  have hdotR : dotProduct ([1] : List ℝ) [1, 1] = JsNum.num 1 := by
    simp [dotProduct, dotAux, jsIndex]
  have hR : cosineSimilarity Real.sqrt ([1] : List ℝ) [1, 1]
      = JsNum.num (1 / (Real.sqrt (sumSq ([1] : List ℝ))
          * Real.sqrt (sumSq ([1, 1] : List ℝ)))) := by
    unfold cosineSimilarity
    rw [hdotR]
    exact JsNum.div_num_num_of_ne _ _ hden
  rw [hL, hR]
  simp

/-- C8 (amended): on vectors of equal length — in particular on any two
embeddings of the model's fixed dimension — `cosineSimilarity` is
symmetric. -/
theorem cosine_symmetric_equal_length (a b : List ℝ) (h : a.length = b.length) :
    cosineSimilarity Real.sqrt a b = cosineSimilarity Real.sqrt b a := by
  unfold cosineSimilarity
  rw [dotProduct_eq_sum a b h.le, dotProduct_eq_sum b a h.ge,
      zip_mul_sum_comm a b, mul_comm (Real.sqrt (sumSq a)) (Real.sqrt (sumSq b))]

/-- Witness for the amended C8 at the equal-length pair `[1, 2]`, `[3, 4]`. -/
theorem cosine_symmetric_equal_length_witness :
    ([1, 2] : List ℝ).length = ([3, 4] : List ℝ).length ∧
    cosineSimilarity Real.sqrt ([1, 2] : List ℝ) [3, 4]
      = cosineSimilarity Real.sqrt ([3, 4] : List ℝ) [1, 2] :=
  ⟨rfl, cosine_symmetric_equal_length [1, 2] [3, 4] rfl⟩

section SortLemmas

variable {K : Type} [LinearOrderedField K] {α : Type}

@[simp] theorem jsLeZero_nan : jsLeZero (JsNum.nan : JsNum K) = false := rfl

@[simp] theorem jsLeZero_num (c : K) :
    jsLeZero (JsNum.num c) = decide (c ≤ 0) := rfl

theorem jsSortInsert_length (cmp : α → α → JsNum K) (x : α) :
    ∀ l : List α, (jsSortInsert cmp x l).length = l.length + 1 := by
  intro l
  induction l with
  | nil => rfl
  | cons y ys ih =>
      by_cases hg : jsLeZero (cmp x y)
      · simp [jsSortInsert, hg]
      · simp [jsSortInsert, hg, ih]

theorem jsSort_length (cmp : α → α → JsNum K) (l : List α) :
    (jsSort cmp l).length = l.length := by
  induction l with
  | nil => rfl
  | cons x xs ih =>
      show (jsSortInsert cmp x (jsSort cmp xs)).length = xs.length + 1
      rw [jsSortInsert_length, ih]

theorem mem_jsSortInsert (cmp : α → α → JsNum K) (x z : α) :
    ∀ l : List α, z ∈ jsSortInsert cmp x l ↔ z = x ∨ z ∈ l := by
  intro l
  induction l with
  | nil => simp [jsSortInsert]
  | cons y ys ih =>
      by_cases hg : jsLeZero (cmp x y)
      · simp [jsSortInsert, hg]
      · simp [jsSortInsert, hg, ih]
        tauto

theorem mem_jsSort (cmp : α → α → JsNum K) (z : α) (l : List α) :
    z ∈ jsSort cmp l ↔ z ∈ l := by
  induction l with
  | nil => simp [jsSort]
  | cons x xs ih =>
      show z ∈ jsSortInsert cmp x (jsSort cmp xs) ↔ _
      rw [mem_jsSortInsert, ih]
      simp

/-- Inserting an element with a real score into a descending run of
real-scored elements keeps the run descending. -/
theorem jsSortInsert_pairwise (f : α → JsNum K) (a : α) (ca : K)
    (ha : f a = JsNum.num ca) :
    ∀ m : List α,
      (∀ z ∈ m, ∃ c : K, f z = JsNum.num c) →
      m.Pairwise (fun u v => ∃ x y : K, f u = JsNum.num x ∧ f v = JsNum.num y ∧ y ≤ x) →
      (jsSortInsert (fun u v => JsNum.sub (f v) (f u)) a m).Pairwise
        (fun u v => ∃ x y : K, f u = JsNum.num x ∧ f v = JsNum.num y ∧ y ≤ x) := by
  intro m
  induction m with
  | nil =>
      intro _ _
      simp [jsSortInsert]
  | cons y ys ih =>
      intro hm hp
      obtain ⟨cy, hy⟩ := hm y (List.mem_cons_self y ys)
      have hmys : ∀ z ∈ ys, ∃ c : K, f z = JsNum.num c :=
        fun z hz => hm z (List.mem_cons_of_mem y hz)
      rcases List.pairwise_cons.mp hp with ⟨hyall, hpys⟩
      by_cases hle : cy - ca ≤ 0
      · have hg : jsLeZero (JsNum.sub (f y) (f a)) = true := by
          simp [hy, ha, hle]
        simp only [jsSortInsert, hg, if_true]
        refine List.pairwise_cons.mpr ⟨?_, hp⟩
        intro z hz
        rcases List.mem_cons.mp hz with hz1 | hz2
        · exact ⟨ca, cy, ha, hz1 ▸ hy, by linarith⟩
        · obtain ⟨cy2, cz, hy2, hz3, hlez⟩ := hyall z hz2
          have hcy2 : cy2 = cy := by
            rw [hy] at hy2
            exact (JsNum.num.injEq _ _).mp hy2.symm
          exact ⟨ca, cz, ha, hz3, by linarith [hcy2 ▸ hlez]⟩
      · have hg : jsLeZero (JsNum.sub (f y) (f a)) = false := by
          simp [hy, ha, hle]
        simp only [jsSortInsert, hg, Bool.false_eq_true, if_false]
        refine List.pairwise_cons.mpr ⟨?_, ih hmys hpys⟩
        intro z hz
        rcases (mem_jsSortInsert _ a z ys).mp hz with hz1 | hz2
        · exact ⟨cy, ca, hy, hz1 ▸ ha, by linarith⟩
        · exact hyall z hz2

/-- When every score is a real number the comparator is consistent and the
sort produces a descending run. -/
theorem jsSort_pairwise (f : α → JsNum K) :
    ∀ l : List α,
      (∀ z ∈ l, ∃ c : K, f z = JsNum.num c) →
      (jsSort (fun u v => JsNum.sub (f v) (f u)) l).Pairwise
        (fun u v => ∃ x y : K, f u = JsNum.num x ∧ f v = JsNum.num y ∧ y ≤ x) := by
  intro l
  induction l with
  | nil => intro _; simp [jsSort]
  | cons a rest ih =>
      intro hm
      obtain ⟨ca, ha⟩ := hm a (List.mem_cons_self a rest)
      have hmr : ∀ z ∈ rest, ∃ c : K, f z = JsNum.num c :=
        fun z hz => hm z (List.mem_cons_of_mem a hz)
      show (jsSortInsert _ a (jsSort _ rest)).Pairwise _
      refine jsSortInsert_pairwise f a ca ha _ ?_ (ih hmr)
      intro z hz
      exact hmr z ((mem_jsSort _ z rest).mp hz)

/-- Inserting an element never reorders the elements of any one score
class: filtering the insertion result by a score value gives the same list
as filtering with the new element simply at the front. -/
theorem jsSortInsert_filter (f : α → JsNum K) (a : α) (ca : K)
    (ha : f a = JsNum.num ca) (s : K) :
    ∀ m : List α,
      (∀ z ∈ m, ∃ c : K, f z = JsNum.num c) →
      (jsSortInsert (fun u v => JsNum.sub (f v) (f u)) a m).filter
          (fun z => decide (f z = JsNum.num s))
        = (a :: m).filter (fun z => decide (f z = JsNum.num s)) := by
  intro m
  induction m with
  | nil => intro _; simp [jsSortInsert]
  | cons y ys ih =>
      intro hm
      obtain ⟨cy, hy⟩ := hm y (List.mem_cons_self y ys)
      have hmys : ∀ z ∈ ys, ∃ c : K, f z = JsNum.num c :=
        fun z hz => hm z (List.mem_cons_of_mem y hz)
      by_cases hle : cy - ca ≤ 0
      · have hg : jsLeZero (JsNum.sub (f y) (f a)) = true := by
          simp [hy, ha, hle]
        simp only [jsSortInsert, hg, if_true]
      · have hg : jsLeZero (JsNum.sub (f y) (f a)) = false := by
          simp [hy, ha, hle]
        simp only [jsSortInsert, hg, Bool.false_eq_true, if_false]
        by_cases hPa : f a = JsNum.num s
        · have hcas : ca = s := by
            rw [ha] at hPa
            exact (JsNum.num.injEq _ _).mp hPa
          have hPy : ¬ f y = JsNum.num s := by
            rw [hy]
            intro hcontra
            have hcys : cy = s := (JsNum.num.injEq _ _).mp hcontra
            exact hle (by rw [hcys, hcas]; simp)
          have hstep :
              List.filter (fun z => decide (f z = JsNum.num s))
                  (y :: jsSortInsert (fun u v => JsNum.sub (f v) (f u)) a ys)
                = List.filter (fun z => decide (f z = JsNum.num s))
                    (jsSortInsert (fun u v => JsNum.sub (f v) (f u)) a ys) := by
            simp [List.filter_cons, hPy]
          rw [hstep, ih hmys]
          simp [List.filter_cons, hPa, hPy]
        · simp only [List.filter_cons]
          rw [ih hmys]
          simp [List.filter_cons, hPa]

/-- Stability: the sort keeps the original relative order within every
score class. -/
theorem jsSort_filter (f : α → JsNum K) (s : K) :
    ∀ l : List α,
      (∀ z ∈ l, ∃ c : K, f z = JsNum.num c) →
      (jsSort (fun u v => JsNum.sub (f v) (f u)) l).filter
          (fun z => decide (f z = JsNum.num s))
        = l.filter (fun z => decide (f z = JsNum.num s)) := by
  intro l
  induction l with
  | nil => intro _; simp [jsSort]
  | cons a rest ih =>
      intro hm
      obtain ⟨ca, ha⟩ := hm a (List.mem_cons_self a rest)
      have hmr : ∀ z ∈ rest, ∃ c : K, f z = JsNum.num c :=
        fun z hz => hm z (List.mem_cons_of_mem a hz)
      show (jsSortInsert _ a (jsSort _ rest)).filter _ = _
      rw [jsSortInsert_filter f a ca ha s _
            (fun z hz => hmr z ((mem_jsSort _ z rest).mp hz))]
      simp only [List.filter_cons]
      rw [ih hmr]

end SortLemmas

/-- Concrete evaluation shared by the ranking results: the similarity of
`[1]` with `[1]` is the ordinary number `1`. -/
theorem cosine_one_one : cosineSimilarity Real.sqrt ([1] : List ℝ) [1] = JsNum.num 1 := by
  have hdot : dotProduct ([1] : List ℝ) [1] = JsNum.num 1 := by
    simp [dotProduct, dotAux, jsIndex]
  have hs : sumSq ([1] : List ℝ) = 1 := by norm_num [sumSq]
  unfold cosineSimilarity
  rw [hdot, hs, Real.sqrt_one, one_mul, JsNum.div_num_num_of_ne 1 1 one_ne_zero]
  norm_num

/-- C2 (amended): whenever every candidate's similarity score is an
ordinary real number (no `NaN` — e.g. all embeddings of the query's
dimension and nonzero), the ranking step returns `min k |candidates|`
results, in descending score order, with ties kept in original candidate
order (the sort moves no element across an equal-scored one), and the
result is the deterministic function of the inputs shown in the last
conjunct. -/
theorem rank_topk_sorted_stable (q : List ℝ) (cand : List (Observation ℝ)) (k : Nat)
    (h : ∀ o ∈ cand, ∃ c : ℝ, cosineSimilarity Real.sqrt o.embedding q = JsNum.num c) :
    (rankObservations Real.sqrt q cand k).length = min k cand.length ∧
    (jsSort similarityCmp (scoreObservations Real.sqrt q cand)).Pairwise
      (fun u v => ∃ x y : ℝ, u.2 = JsNum.num x ∧ v.2 = JsNum.num y ∧ y ≤ x) ∧
    (∀ s : ℝ,
      (jsSort similarityCmp (scoreObservations Real.sqrt q cand)).filter
          (fun p => decide (p.2 = JsNum.num s))
        = (scoreObservations Real.sqrt q cand).filter
            (fun p => decide (p.2 = JsNum.num s))) ∧
    rankObservations Real.sqrt q cand k
      = ((jsSort similarityCmp (scoreObservations Real.sqrt q cand)).take k).map
          Prod.fst := by
  have hscored : ∀ z ∈ scoreObservations Real.sqrt q cand,
      ∃ c : ℝ, z.2 = JsNum.num c := by
    intro z hz
    simp only [scoreObservations, List.mem_map] at hz
    obtain ⟨o, ho, rfl⟩ := hz
    exact h o ho
  have hcmp : (similarityCmp : (String × JsNum ℝ) → (String × JsNum ℝ) → JsNum ℝ)
      = fun u v => JsNum.sub (Prod.snd v) (Prod.snd u) := rfl
  refine ⟨?_, ?_, ?_, rfl⟩
  · show (((jsSort similarityCmp (scoreObservations Real.sqrt q cand)).take k).map
        Prod.fst).length = _
    rw [List.length_map, List.length_take, jsSort_length]
    simp [scoreObservations]
  · rw [hcmp]
    exact jsSort_pairwise Prod.snd _ hscored
  · intro s
    rw [hcmp]
    exact jsSort_filter Prod.snd s _ hscored

/-- Witness for the amended C2: a single candidate with score `1` for the
query `[1]`; the ranking step returns exactly one result. -/
theorem rank_topk_sorted_stable_witness :
    (∀ o ∈ [(⟨"a", [1]⟩ : Observation ℝ)], ∃ c : ℝ,
        cosineSimilarity Real.sqrt o.embedding [1] = JsNum.num c) ∧
    (rankObservations Real.sqrt [1] [(⟨"a", [1]⟩ : Observation ℝ)] 1).length = 1 := by
  have hyp : ∀ o ∈ [(⟨"a", [1]⟩ : Observation ℝ)], ∃ c : ℝ,
      cosineSimilarity Real.sqrt o.embedding [1] = JsNum.num c := by
    intro o ho
    have ho2 : o = ⟨"a", [1]⟩ := by simpa using ho
    subst ho2
    exact ⟨1, cosine_one_one⟩
  refine ⟨hyp, ?_⟩
  have h := (rank_topk_sorted_stable [1] [⟨"a", [1]⟩] 1 hyp).1
  simpa using h

/-- Counterexample to C2: with the zero-magnitude candidate embedding `[0]`
in the index, its score is `NaN`; the comparator returns `NaN` against it,
the sort leaves the order implementation-defined (modelled here by the
no-swap behaviour), and the returned ranking `["b", "a"]` is *not* in
descending score order — the trailing `NaN` is not `≤` the leading `1`. -/
theorem rank_nan_unsorted_counterexample :
    rankObservations Real.sqrt [(1 : ℝ)]
        [(⟨"a", [0]⟩ : Observation ℝ), ⟨"b", [1]⟩] 2 = ["b", "a"] ∧
    ¬ (jsSort similarityCmp
          (scoreObservations Real.sqrt [(1 : ℝ)]
            [(⟨"a", [0]⟩ : Observation ℝ), ⟨"b", [1]⟩])).Pairwise
        (fun u v => ∃ x y : ℝ, u.2 = JsNum.num x ∧ v.2 = JsNum.num y ∧ y ≤ x) := by
  have hca : cosineSimilarity Real.sqrt ([0] : List ℝ) [1] = JsNum.nan := by
    have hdot : dotProduct ([0] : List ℝ) [1] = JsNum.num 0 := by
      simp [dotProduct, dotAux, jsIndex]
    have hs : sumSq ([0] : List ℝ) = 0 := by simp [sumSq]
    unfold cosineSimilarity
    rw [hdot, hs, Real.sqrt_zero, zero_mul]
    exact JsNum.div_zero_zero
  have hscore : scoreObservations Real.sqrt [(1 : ℝ)]
      [(⟨"a", [0]⟩ : Observation ℝ), ⟨"b", [1]⟩]
      = [("a", JsNum.nan), ("b", JsNum.num 1)] := by
    simp [scoreObservations, hca, cosine_one_one]
  have hsort : jsSort similarityCmp
      [(("a" : String), (JsNum.nan : JsNum ℝ)), ("b", JsNum.num 1)]
      = [("b", JsNum.num 1), ("a", JsNum.nan)] := by
    simp [jsSort, jsSortInsert, similarityCmp]
  constructor
  · show ((jsSort similarityCmp (scoreObservations Real.sqrt _ _)).take 2).map
        Prod.fst = _
    rw [hscore, hsort]
    rfl
  · rw [hscore, hsort]
    intro hpair
    rcases List.pairwise_cons.mp hpair with ⟨h1, _⟩
    obtain ⟨x, y, _, hy, _⟩ := h1 ("a", JsNum.nan) (List.mem_cons_self _ _)
    exact JsNum.noConfusion hy
